import Mathlib

/- Formal model of the assam visibility / contact pipeline
   (src/assam/visibility/astro_target.py) and of the sky-grid bitmap renderer
   (src/assam/visualisation/visualisation_module.py).

   Conventions of the shallow embedding:
   - epochs (astropy Time values, accessed through .jd) and angles are
     modelled as rationals;
   - per-epoch numpy arrays are modelled as functions from the epoch index;
   - numpy integer arrays (run lengths, start indices) are modelled as
     lists of integers;
   - code that raises is modelled with Option, none standing for the raise. -/

set_option maxHeartbeats 1000000

namespace Assam

/-- numpy np.diff: pairwise differences of consecutive elements. -/
def npDiff (l : List Int) : List Int :=
  (l.zip l.tail).map (fun p => p.2 - p.1)

/-- numpy np.cumsum: running sums of a list. -/
def npCumsum : List Int → List Int
  | [] => []
  | a :: t => a :: (npCumsum t).map (fun s => a + s)

/-- Positions j with ia[j+1] different from ia[j]: this is
    np.where(ia[1:] != ia[:-1]) inside the function rle of astro_target.py. -/
def changePoints {α : Type} [DecidableEq α] [Inhabited α] (ia : List α) : List Nat :=
  (List.range (ia.length - 1)).filter
    (fun j => decide (ia.getD (j + 1) default ≠ ia.getD j default))

/-- End position of every run: np.append(np.where(y), n - 1) in rle. -/
def runEnds {α : Type} [DecidableEq α] [Inhabited α] (ia : List α) : List Nat :=
  changePoints ia ++ [ia.length - 1]

/-- Run lengths: z = np.diff(np.append(-1, i)) in rle. -/
def rleLengths {α : Type} [DecidableEq α] [Inhabited α] (ia : List α) : List Int :=
  npDiff ((-1) :: (runEnds ia).map (fun (k : Nat) => (k : Int)))

/-- Run start positions: p = np.cumsum(np.append(0, z))[:-1] in rle. -/
def rleStarts {α : Type} [DecidableEq α] [Inhabited α] (ia : List α) : List Int :=
  (npCumsum (0 :: rleLengths ia)).dropLast

/-- Run values: ia[i] in rle. -/
def rleValues {α : Type} [DecidableEq α] [Inhabited α] (ia : List α) : List α :=
  (runEnds ia).map (fun k => ia.getD k default)

/-- Run-length encoding: the function rle of astro_target.py, returning
    (lengths, start indices, values).  On an empty input the source returns
    the triple (None, None, None), modelled here as none. -/
def rle {α : Type} [DecidableEq α] [Inhabited α] (ia : List α) :
    Option (List Int × List Int × List α) :=
  if ia.length = 0 then none
  else some (rleLengths ia, rleStarts ia, rleValues ia)

/-- Contact record: class TargetContact of astro_target.py, in the
    non-verbose mode (verbose time raises NotImplementedError in the source
    and is never used by the pipeline).  The target back-reference is not
    part of the value.  Times are stored as scalar day counts (.jd). -/
structure TargetContact where
  start : ℚ
  end_ : ℚ
  duration : ℚ
  benefit : ℚ
deriving DecidableEq, Repr

/-- Constructor body of TargetContact.__init__ for verbose_time = False:
    duration = end - start and, with differential benefit, the stored benefit
    is the input benefit rate multiplied by the duration. -/
def TargetContact.make (start end_ benefit : ℚ) (differential_benefit : Bool) :
    TargetContact :=
  let duration := end_ - start
  { start := start
    end_ := end_
    duration := duration
    benefit := if differential_benefit then benefit * duration else benefit }

/-- AstroTarget.calculate_contacts of astro_target.py.  Arguments stand for
    the attributes self.visibility, self.obstime (day counts) and
    self.priority used by the method.  When rle returns the None triple
    (empty visibility) the source raises TypeError at istart + ilength;
    this is modelled by returning none. -/
def calculate_contacts (visibility : List Bool) (obstime : List ℚ) (priority : ℚ) :
    Option (List TargetContact) :=
  match rle visibility with
  | none => none
  | some (ilength, istart, ivalue) =>
    let n : Int := (visibility.length : Int)
    -- iend = istart + ilength, then np.clip(iend, 0, len(visibility) - 1)
    let iend := List.zipWith (fun s l => s + l) istart ilength
    let iendClipped := iend.map (fun e => min (n - 1) (max e 0))
    -- keep runs with ivalue == True and istart != len(visibility) - 1
    let runs := istart.zip (iendClipped.zip ivalue)
    let kept := runs.filter (fun r => r.2.2 && decide (r.1 ≠ n - 1))
    some (kept.map (fun r =>
      TargetContact.make (obstime.getD r.1.toNat 0) (obstime.getD r.2.1.toNat 0)
        (1 / priority) true))

/-- Contact extraction as worded by the specification: run-length encode,
    set end_index = min(start_index + length, N - 1), discard runs with a
    false value or start_index = N - 1, and build each contact with epochs
    looked up at start_index / end_index, duration = end - start and
    benefit = duration * (1 / priority). -/
def contactsFromSpec (visibility : List Bool) (obstime : List ℚ) (priority : ℚ) :
    Option (List TargetContact) :=
  match rle visibility with
  | none => none
  | some (ilength, istart, ivalue) =>
    let n : Int := (visibility.length : Int)
    let runs := istart.zip (ilength.zip ivalue)
    let kept := runs.filter (fun r => r.2.2 && decide (r.1 ≠ n - 1))
    some (kept.map (fun r =>
      let endIndex := min (r.1 + r.2.1) (n - 1)
      let s := obstime.getD r.1.toNat 0
      let e := obstime.getD endIndex.toNat 0
      { start := s, end_ := e, duration := e - s, benefit := (e - s) * (1 / priority) }))

/-- Statistics row produced by AstroTarget.calculate_overall_stats.  The
    duration statistics are Options, none standing for the float NaN
    assigned by the source in the zero-contact branch.  The standard
    deviation is a real number (np.std takes a square root). -/
structure StatsRow where
  name : String
  category : String
  mean_ra : ℚ
  mean_dec : ℚ
  n_contacts : Nat
  total_duration : ℚ
  percentage_duration : ℚ
  mean_duration : Option ℚ
  stddev_duration : Option ℝ
  min_duration : Option ℚ
  max_duration : Option ℚ

/-- AstroTarget.calculate_overall_stats of astro_target.py.  Arguments stand
    for the attributes self.name, self.category, the wrapped mean
    coordinates (computed by the external astropy collaborator and stored
    verbatim here), self.contacts and self.obstime (day counts). -/
noncomputable def calculate_overall_stats (name category : String)
    (mean_ra mean_dec : ℚ) (contacts : List TargetContact) (obstime : List ℚ) :
    StatsRow :=
  let contact_durations := contacts.map (fun c => c.duration)
  let n_contacts := contact_durations.length
  if n_contacts = 0 then
    { name := name, category := category, mean_ra := mean_ra, mean_dec := mean_dec
      n_contacts := n_contacts
      total_duration := 0
      percentage_duration := 0
      mean_duration := none
      stddev_duration := none
      min_duration := none
      max_duration := none }
  else
    let total := contact_durations.sum
    let mean := total / (n_contacts : ℚ)
    { name := name, category := category, mean_ra := mean_ra, mean_dec := mean_dec
      n_contacts := n_contacts
      total_duration := total
      -- 100 * total_duration / (obstime[-1].jd - obstime[0].jd)
      percentage_duration := 100 * total / (obstime.getLastD 0 - obstime.headD 0)
      mean_duration := some mean
      -- np.std: square root of the mean squared deviation
      stddev_duration := some (Real.sqrt
        (((contact_durations.map (fun d => ((d : ℝ) - (mean : ℝ)) ^ 2)).sum)
          / (n_contacts : ℝ)))
      min_duration := contact_durations.min?
      max_duration := contact_durations.max? }

/-- Occluding solar-system body.  Modelled from the spec: the Occluder data
    container (per-epoch sky position, per-epoch angular radius, ordered
    soft exclusion bands); the SolarBody class definition itself is not
    among the provided sources, only its attribute usage in
    astro_target.py and visualisation_module.py.  Sky positions live in an
    abstract position type Pos; the angular-separation primitive between
    positions is an external collaborator passed as a function. -/
structure SolarBody (Pos : Type) where
  coordinates : Nat → Pos
  angular_radius : Nat → ℚ
  soft_radius : List (ℚ × ℚ)

/-- Subtarget: class AstroSubtarget of astro_target.py.  Only the attributes
    read by the embedded operations are kept (name, frame, the fixed
    angular radius and the per-epoch coordinates); centre, shape, width,
    height and the ICRS copy of the coordinates are constructor metadata
    never read by the modelled code paths. -/
structure AstroSubtarget (Pos : Type) where
  name : String
  frame : String
  angular_radius : ℚ
  coordinates : Nat → Pos

/-- Target: class AstroTarget of astro_target.py (name, priority, category
    and the owned subtargets; derived attributes are produced by the
    functions below). -/
structure AstroTarget (Pos : Type) where
  name : String
  priority : ℚ
  category : String
  subtargets : List (AstroSubtarget Pos)

/-- AstroSubtarget.calculate_visibility of astro_target.py, per epoch index:
    a list is built whose first entry is the hard-disk test
    (separation - target radius - body radius >= 0) followed by one entry
    per soft band (not (inner violated and outer violated)), and np.all
    conjoins the list. -/
def AstroSubtarget.calculate_visibility {Pos : Type} (sep : Pos → Pos → ℚ)
    (st : AstroSubtarget Pos) (solar_body : SolarBody Pos) (t : Nat) : Bool :=
  let angular_separation := sep (solar_body.coordinates t) (st.coordinates t)
  let visibility :=
    [decide (angular_separation - st.angular_radius - solar_body.angular_radius t ≥ 0)]
    ++ solar_body.soft_radius.map (fun r =>
        let visibility_inner := decide (angular_separation + st.angular_radius - r.1 > 0)
        let visibility_outer := decide (angular_separation - st.angular_radius - r.2 < 0)
        !(visibility_inner && visibility_outer))
  visibility.all id

/-- AstroTarget.calculate_visibility of astro_target.py, per epoch index:
    the per-(subtarget, solar body) visibilities are appended in a nested
    loop and np.all over the pair axis conjoins them. -/
def AstroTarget.calculate_visibility {Pos : Type} (sep : Pos → Pos → ℚ)
    (target : AstroTarget Pos) (solar_bodies : List (SolarBody Pos)) (t : Nat) : Bool :=
  let visibility := target.subtargets.flatMap (fun subtarget =>
    solar_bodies.map (fun solar_body =>
      subtarget.calculate_visibility sep solar_body t))
  visibility.all id

/-- Solar-body occupancy at one grid point: the solar-body part of
    VisualisationModule.generate_bitmap, per grid point g at epoch index.
    The bitmap starts false, each body contributes
    or(separation <= hard radius, any band with r1 <= separation <= r2),
    and bodies are combined with logical or. -/
def solar_bitmap_at {Pos : Type} (sep : Pos → Pos → ℚ)
    (solar_bodies : List (SolarBody Pos)) (index : Nat) (g : Pos) : Bool :=
  solar_bodies.foldl (fun acc solar_body =>
    acc ||
      (decide (sep (solar_body.coordinates index) g ≤ solar_body.angular_radius index) ||
       solar_body.soft_radius.foldl
         (fun acc2 r => acc2 ||
           (decide (r.1 ≤ sep (solar_body.coordinates index) g) &&
            decide (sep (solar_body.coordinates index) g ≤ r.2)))
         false)) false

/-- Target occupancy at one grid point: the target part of
    VisualisationModule.generate_bitmap, per grid point g at epoch index.
    The bitmap starts false and every subtarget of every target contributes
    (separation <= subtarget angular radius) with logical or. -/
def target_bitmap_at {Pos : Type} (sep : Pos → Pos → ℚ)
    (targets : List (AstroTarget Pos)) (index : Nat) (g : Pos) : Bool :=
  targets.foldl (fun acc target =>
    target.subtargets.foldl (fun acc2 subtarget =>
      acc2 || decide (sep (subtarget.coordinates index) g ≤ subtarget.angular_radius))
      acc) false

/-- Example occluder with one soft band (5, 10) and zero hard radius,
    positions collapsed to a point type. -/
def exampleBody : SolarBody Unit :=
  { coordinates := fun _ => ()
    angular_radius := fun _ => 0
    soft_radius := [(5, 10)] }

/-- Example subtarget of angular radius 1. -/
def exampleSubtarget : AstroSubtarget Unit :=
  { name := "sub"
    frame := "icrs"
    angular_radius := 1
    coordinates := fun _ => () }

/-- Example subtarget of angular radius 2 at the same position. -/
def exampleSubtarget2 : AstroSubtarget Unit :=
  { name := "sub2"
    frame := "icrs"
    angular_radius := 2
    coordinates := fun _ => () }

/-- Example occluder with hard radius 1 and soft band (10, 11). -/
def exampleBody2 : SolarBody Unit :=
  { coordinates := fun _ => ()
    angular_radius := fun _ => 1
    soft_radius := [(10, 11)] }

/-- Example occluder with hard radius 2 and the enlarged soft band (9, 12). -/
def exampleBody3 : SolarBody Unit :=
  { coordinates := fun _ => ()
    angular_radius := fun _ => 2
    soft_radius := [(9, 12)] }

/-- Example target owning one subtarget. -/
def exampleTarget : AstroTarget Unit :=
  { name := "target"
    priority := 2
    category := "cat"
    subtargets := [exampleSubtarget] }

/-- Zero-radius probe subtarget pinned at a grid point g, used to evaluate
    the time-series exclusion model at a grid point of the renderer. -/
def probe {Pos : Type} (g : Pos) : AstroSubtarget Pos :=
  { name := "probe"
    frame := "icrs"
    angular_radius := 0
    coordinates := fun _ => g }

/-- Constant separation of 6 degrees. -/
def sep6 : Unit → Unit → ℚ := fun _ _ => 6

/-- Constant separation of 12 degrees. -/
def sep12 : Unit → Unit → ℚ := fun _ _ => 12

/-- Constant separation of 4 degrees. -/
def sep4 : Unit → Unit → ℚ := fun _ _ => 4

/-- Constant separation of 1 degree. -/
def sep1 : Unit → Unit → ℚ := fun _ _ => 1

section Lemmas

/-- Folding a disjunction over a list equals the seed disjoined with any. -/
theorem foldl_or_any {β : Type} (g : β → Bool) :
    ∀ (l : List β) (b : Bool), l.foldl (fun acc x => acc || g x) b = (b || l.any g) := by
  intro l
  induction l with
  | nil => intro b; simp
  | cons x xs ih => intro b; simp [List.foldl_cons, ih, Bool.or_assoc]

/-- Characterisation of the per-occluder subtarget visibility: hard-disk
    clearance conjoined with, per soft band, the negation of the violation
    of both band inequalities. -/
theorem subtarget_visibility_iff {Pos : Type} (sep : Pos → Pos → ℚ)
    (st : AstroSubtarget Pos) (sb : SolarBody Pos) (t : Nat) :
    st.calculate_visibility sep sb t = true ↔
      (0 ≤ sep (sb.coordinates t) (st.coordinates t) - st.angular_radius - sb.angular_radius t ∧
       ∀ r ∈ sb.soft_radius,
         ¬(sep (sb.coordinates t) (st.coordinates t) + st.angular_radius - r.1 > 0 ∧
           sep (sb.coordinates t) (st.coordinates t) - st.angular_radius - r.2 < 0)) := by
  simp [AstroSubtarget.calculate_visibility, not_and, not_lt]

/-- Characterisation of target visibility as the conjunction over all
    (subtarget, solar body) pairs. -/
theorem target_visibility_iff {Pos : Type} (sep : Pos → Pos → ℚ)
    (target : AstroTarget Pos) (solar_bodies : List (SolarBody Pos)) (t : Nat) :
    target.calculate_visibility sep solar_bodies t = true ↔
      ∀ st ∈ target.subtargets, ∀ sb ∈ solar_bodies,
        st.calculate_visibility sep sb t = true := by
  simp [AstroTarget.calculate_visibility]

/-- Transport of a pointwise property along a Forall₂ relation. -/
theorem forall_of_forall₂ {γ δ : Type} {R : γ → δ → Prop} {P : γ → Prop} {Q : δ → Prop} :
    ∀ {l : List γ} {l' : List δ}, List.Forall₂ R l l' → (∀ y ∈ l', Q y) →
      (∀ x y, R x y → Q y → P x) → ∀ x ∈ l, P x := by
  intro l l' h
  induction h with
  | nil => intro _ _ x hx; cases hx
  | cons hR _ ih =>
    intro hQ himp x hx
    rcases List.mem_cons.mp hx with hx | hx
    · subst hx
      exact himp _ _ hR (hQ _ (List.mem_cons_self _ _))
    · exact ih (fun y hy => hQ y (List.mem_cons_of_mem _ hy)) himp x hx

/-- Characterisation of the solar-body occupancy bitmap at one grid point:
    occupied exactly when some body's hard disk or some soft band contains
    the grid point, with closed boundary comparisons. -/
theorem solar_bitmap_at_iff {Pos : Type} (sep : Pos → Pos → ℚ)
    (solar_bodies : List (SolarBody Pos)) (index : Nat) (g : Pos) :
    solar_bitmap_at sep solar_bodies index g = true ↔
      ∃ sb ∈ solar_bodies,
        (sep (sb.coordinates index) g ≤ sb.angular_radius index ∨
         ∃ r ∈ sb.soft_radius,
           r.1 ≤ sep (sb.coordinates index) g ∧ sep (sb.coordinates index) g ≤ r.2) := by
  unfold solar_bitmap_at
  simp [foldl_or_any]

/-- Characterisation of the target occupancy bitmap at one grid point:
    occupied exactly when some subtarget disk of some target contains the
    grid point. -/
theorem target_bitmap_at_iff {Pos : Type} (sep : Pos → Pos → ℚ)
    (targets : List (AstroTarget Pos)) (index : Nat) (g : Pos) :
    target_bitmap_at sep targets index g = true ↔
      ∃ target ∈ targets, ∃ st ∈ target.subtargets,
        sep (st.coordinates index) g ≤ st.angular_radius := by
  unfold target_bitmap_at
  simp [foldl_or_any]

/-- Unfolding of npDiff on two leading elements. -/
theorem npDiff_cons_cons (a b : Int) (t : List Int) :
    npDiff (a :: b :: t) = (b - a) :: npDiff (b :: t) := rfl

/-- npDiff is invariant under shifting all entries by one. -/
theorem npDiff_shift : ∀ (l : List Int), npDiff (l.map (fun k => k + 1)) = npDiff l := by
  intro l
  induction l with
  | nil => rfl
  | cons a t ih =>
    cases t with
    | nil => rfl
    | cons b t' =>
      simp only [List.map_cons] at ih ⊢
      rw [npDiff_cons_cons, npDiff_cons_cons, ih]
      congr 1
      ring

/-- Length of npDiff on a nonempty list. -/
theorem npDiff_length (a : Int) (t : List Int) : (npDiff (a :: t)).length = t.length := by
  simp [npDiff]

/-- Length of npCumsum. -/
theorem npCumsum_length : ∀ (l : List Int), (npCumsum l).length = l.length := by
  intro l
  induction l with
  | nil => rfl
  | cons a t ih => simp [npCumsum, ih]

/-- Entries of npCumsum are the partial sums. -/
theorem npCumsum_getD : ∀ (l : List Int) (k : Nat), k < l.length →
    (npCumsum l).getD k 0 = (l.take (k + 1)).sum := by
  intro l
  induction l with
  | nil => intro k h; cases h
  | cons a t ih =>
    intro k hk
    cases k with
    | zero => simp [npCumsum]
    | succ k =>
      have hk' : k < t.length := by simpa using hk
      have hk'' : k < (npCumsum t).length := by rw [npCumsum_length]; exact hk'
      calc (npCumsum (a :: t)).getD (k + 1) 0
          = ((npCumsum t).map (fun s => a + s)).getD k 0 := by simp [npCumsum]
        _ = a + (npCumsum t).getD k 0 := by
            rw [List.getD_eq_getElem _ _ (by simpa using hk''), List.getElem_map,
              List.getD_eq_getElem _ _ hk'']
        _ = a + (t.take (k + 1)).sum := by rw [ih k hk']
        _ = ((a :: t).take (k + 1 + 1)).sum := by simp

/-- Change points of a list with two leading entries: position 0 is a change
    point exactly when the two leading entries differ, and the remaining
    change points are those of the tail shifted by one. -/
theorem changePoints_cons_cons {α : Type} [DecidableEq α] [Inhabited α] (x y : α) (l : List α) :
    changePoints (x :: y :: l) =
      (if y = x then [] else [0]) ++ (changePoints (y :: l)).map Nat.succ := by
  unfold changePoints
  simp only [List.length_cons, Nat.add_sub_cancel]
  rw [List.range_succ_eq_map, List.filter_cons, List.filter_map]
  have hcomp : ((fun j => decide ((x :: y :: l).getD (j + 1) default ≠
        (x :: y :: l).getD j default)) ∘ Nat.succ)
      = (fun j => decide ((y :: l).getD (j + 1) default ≠ (y :: l).getD j default)) := by
    funext j
    simp [Function.comp, List.getD_cons_succ]
  rw [hcomp]
  by_cases h : y = x
  · simp [h]
  · simp [h, Ne.symm h]

/-- Run ends of a list with two leading entries. -/
theorem runEnds_cons_cons {α : Type} [DecidableEq α] [Inhabited α] (x y : α) (l : List α) :
    runEnds (x :: y :: l) = (if y = x then [] else [0]) ++ (runEnds (y :: l)).map Nat.succ := by
  unfold runEnds
  rw [changePoints_cons_cons]
  by_cases h : y = x <;> simp [h, List.map_append]

/-- Run ends of a singleton. -/
theorem runEnds_singleton {α : Type} [DecidableEq α] [Inhabited α] (x : α) :
    runEnds [x] = [0] := rfl

/-- Run ends are never empty. -/
theorem runEnds_ne_nil {α : Type} [DecidableEq α] [Inhabited α] (ia : List α) :
    runEnds ia ≠ [] := by
  simp [runEnds]

/-- Run values are never empty. -/
theorem rleValues_ne_nil {α : Type} [DecidableEq α] [Inhabited α] (ia : List α) :
    rleValues ia ≠ [] := by
  have h := runEnds_ne_nil ia
  simp [rleValues]
  intro hc
  exact absurd hc h

/-- Run lengths of a singleton. -/
theorem rleLengths_singleton {α : Type} [DecidableEq α] [Inhabited α] (x : α) :
    rleLengths [x] = [1] := rfl

/-- Run values of a singleton. -/
theorem rleValues_singleton {α : Type} [DecidableEq α] [Inhabited α] (x : α) :
    rleValues [x] = [x] := rfl

/-- Run lengths when the two leading entries differ: a fresh run of length
    one is prepended. -/
theorem rleLengths_cons_of_ne {α : Type} [DecidableEq α] [Inhabited α] {x y : α}
    (l : List α) (h : y ≠ x) :
    rleLengths (x :: y :: l) = 1 :: rleLengths (y :: l) := by
  unfold rleLengths
  rw [runEnds_cons_cons, if_neg h]
  have hM : ((runEnds (y :: l)).map Nat.succ).map (fun (k : Nat) => (k : Int))
      = ((runEnds (y :: l)).map (fun (k : Nat) => (k : Int))).map (fun k => k + 1) := by
    rw [List.map_map, List.map_map]
    congr 1
  simp only [List.cons_append, List.nil_append, List.map_cons, hM]
  rw [npDiff_cons_cons]
  have h0 : ((0 : Nat) : Int) - (-1) = 1 := by norm_num
  rw [h0]
  congr 1
  have h1 : ((0 : Nat) : Int) :: ((runEnds (y :: l)).map (fun (k : Nat) => (k : Int))).map (fun k => k + 1)
      = (((-1) : Int) :: (runEnds (y :: l)).map (fun (k : Nat) => (k : Int))).map (fun k => k + 1) := by
    simp
  rw [h1, npDiff_shift]

/-- Run lengths when the two leading entries agree: the first run length is
    incremented. -/
theorem rleLengths_cons_of_eq {α : Type} [DecidableEq α] [Inhabited α] (x : α) (l : List α) :
    ∃ z0 zt, rleLengths (x :: l) = z0 :: zt ∧
      rleLengths (x :: x :: l) = (z0 + 1) :: zt := by
  obtain ⟨e, es, hE⟩ := List.exists_cons_of_ne_nil (runEnds_ne_nil (x :: l))
  refine ⟨(e : Int) + 1, npDiff ((e : Int) :: es.map (fun (k : Nat) => (k : Int))), ?_, ?_⟩
  · unfold rleLengths
    rw [hE]
    simp only [List.map_cons]
    rw [npDiff_cons_cons, show ((e : Int)) - (-1) = ((e : Int)) + 1 from by omega]
  · unfold rleLengths
    rw [runEnds_cons_cons, if_pos rfl, hE]
    have hM : ((e :: es).map Nat.succ).map (fun (k : Nat) => (k : Int))
        = ((e :: es).map (fun (k : Nat) => (k : Int))).map (fun k => k + 1) := by
      rw [List.map_map, List.map_map]
      congr 1
    rw [List.nil_append, hM]
    simp only [List.map_cons]
    rw [npDiff_cons_cons, show ((e : Int) + 1) - (-1) = ((e : Int) + 1) + 1 from by omega]
    congr 1
    rw [show ((e : Int) + 1) :: (es.map (fun (k : Nat) => (k : Int))).map (fun k => k + 1)
          = (((e : Int)) :: es.map (fun (k : Nat) => (k : Int))).map (fun k => k + 1) from by simp,
      npDiff_shift]

/-- Run values when the two leading entries agree. -/
theorem rleValues_cons_of_eq {α : Type} [DecidableEq α] [Inhabited α] (x : α) (l : List α) :
    rleValues (x :: x :: l) = rleValues (x :: l) := by
  unfold rleValues
  rw [runEnds_cons_cons, if_pos rfl]
  simp [List.map_map, Function.comp, List.getD_cons_succ]

/-- Run values when the two leading entries differ. -/
theorem rleValues_cons_of_ne {α : Type} [DecidableEq α] [Inhabited α] {x y : α}
    (l : List α) (h : y ≠ x) :
    rleValues (x :: y :: l) = x :: rleValues (y :: l) := by
  unfold rleValues
  rw [runEnds_cons_cons, if_neg h]
  simp [List.map_map, Function.comp, List.getD_cons_succ]

/-- Core invariants of the run-length encoding: positive lengths summing to
    the input length, first run value equal to the input head, adjacent run
    values distinct, and reconstruction of the input by concatenating each
    run value replicated by its run length. -/
theorem rle_invariants {α : Type} [DecidableEq α] [Inhabited α] :
    ∀ (ia : List α), ia ≠ [] →
      (∀ z ∈ rleLengths ia, 0 < z) ∧
      (rleLengths ia).sum = (ia.length : Int) ∧
      (rleValues ia).headD default = ia.headD default ∧
      List.Chain' (fun a b => a ≠ b) (rleValues ia) ∧
      (List.zipWith (fun z v => List.replicate z.toNat v)
        (rleLengths ia) (rleValues ia)).flatten = ia := by
  intro ia
  induction ia with
  | nil => intro h; exact absurd rfl h
  | cons x xs ih =>
    intro _
    cases xs with
    | nil =>
      refine ⟨?_, ?_, ?_, ?_, ?_⟩ <;>
        simp [rleLengths_singleton, rleValues_singleton]
    | cons y l =>
      obtain ⟨hpos, hsum, hhead, hchain, hjoin⟩ := ih (by simp)
      obtain ⟨v0, vt, hv1⟩ := List.exists_cons_of_ne_nil (rleValues_ne_nil (y :: l))
      have hv0 : v0 = y := by
        have hh := hhead
        rw [hv1] at hh
        simpa using hh
      by_cases hxy : y = x
      · subst hxy
        obtain ⟨z0, zt, hz1, hz2⟩ := rleLengths_cons_of_eq y l
        have hv2 := rleValues_cons_of_eq y l
        have hz0pos : 0 < z0 := hpos z0 (by rw [hz1]; exact List.mem_cons_self _ _)
        refine ⟨?_, ?_, ?_, ?_, ?_⟩
        · intro z hz
          rw [hz2] at hz
          rcases List.mem_cons.mp hz with hzz | hzz
          · omega
          · exact hpos z (by rw [hz1]; exact List.mem_cons_of_mem _ hzz)
        · rw [hz2]
          rw [hz1] at hsum
          simp only [List.sum_cons, List.length_cons] at hsum ⊢
          push_cast at hsum ⊢
          omega
        · rw [hv2, hv1]
          simpa using hv0
        · rw [hv2]
          exact hchain
        · rw [hz2, hv2, hv1]
          rw [hz1, hv1] at hjoin
          rw [List.zipWith_cons_cons] at hjoin ⊢
          rw [List.flatten_cons] at hjoin ⊢
          have ht : (z0 + 1).toNat = z0.toNat + 1 := by omega
          rw [ht, List.replicate_succ, hv0]
          rw [hv0] at hjoin
          rw [List.cons_append, hjoin]
      · have hz2 := rleLengths_cons_of_ne l hxy
        have hv2 := rleValues_cons_of_ne l hxy
        refine ⟨?_, ?_, ?_, ?_, ?_⟩
        · intro z hz
          rw [hz2] at hz
          rcases List.mem_cons.mp hz with hzz | hzz
          · omega
          · exact hpos z hzz
        · rw [hz2]
          simp only [List.sum_cons, List.length_cons] at hsum ⊢
          push_cast at hsum ⊢
          omega
        · rw [hv2]
          simp
        · rw [hv2, hv1]
          rw [hv1] at hchain
          exact List.chain'_cons.mpr ⟨by rw [hv0]; exact Ne.symm hxy, hchain⟩
        · rw [hz2, hv2]
          rw [List.zipWith_cons_cons, List.flatten_cons, hjoin]
          simp

/-- Lengths of the run-length component lists agree with the run ends. -/
theorem rleLengths_length {α : Type} [DecidableEq α] [Inhabited α] (ia : List α) :
    (rleLengths ia).length = (runEnds ia).length := by
  unfold rleLengths
  rw [npDiff_length]
  simp

/-- There is always at least one run end. -/
theorem runEnds_length_pos {α : Type} [DecidableEq α] [Inhabited α] (ia : List α) :
    0 < (runEnds ia).length := by
  simp [runEnds]

/-- The starts list has the same length as the lengths list. -/
theorem rleStarts_length {α : Type} [DecidableEq α] [Inhabited α] (ia : List α) :
    (rleStarts ia).length = (rleLengths ia).length := by
  simp [rleStarts, List.length_dropLast, npCumsum_length]

/-- Looking up the list with its final entry dropped agrees with the
    original list on the retained indices. -/
theorem dropLast_getD_int (l : List Int) (k : Nat) (h : k < l.length - 1) :
    (l.dropLast).getD k 0 = l.getD k 0 := by
  have h1 : k < l.dropLast.length := by
    rw [List.length_dropLast]
    exact h
  have h2 : k < l.length := by omega
  rw [List.getD_eq_getElem _ _ h1, List.getD_eq_getElem _ _ h2, List.getElem_dropLast]

/-- Entries of the run start positions are partial sums of run lengths. -/
theorem rleStarts_getD {α : Type} [DecidableEq α] [Inhabited α] (ia : List α) (k : Nat)
    (h : k < (rleLengths ia).length) :
    (rleStarts ia).getD k 0 = ((rleLengths ia).take k).sum := by
  unfold rleStarts
  rw [dropLast_getD_int _ _ (by simp [npCumsum_length]; exact h)]
  rw [npCumsum_getD _ _ (by simp; omega)]
  simp

/-- Partial sums of a nonnegative integer list are monotone. -/
theorem sum_take_mono (l : List Int) (hpos : ∀ x ∈ l, 0 ≤ x) :
    ∀ j k : Nat, j ≤ k → (l.take j).sum ≤ (l.take k).sum := by
  intro j k hjk
  have hk : k = j + (k - j) := by omega
  rw [hk, List.take_add, List.sum_append]
  have hnn : 0 ≤ ((l.drop j).take (k - j)).sum :=
    List.sum_nonneg (fun x hx => hpos x (List.mem_of_mem_drop (List.mem_of_mem_take hx)))
  omega

/-- A partial sum of a nonnegative integer list is at most the full sum. -/
theorem sum_take_le_sum (l : List Int) (hpos : ∀ x ∈ l, 0 ≤ x) (j : Nat) :
    (l.take j).sum ≤ l.sum := by
  by_cases hj : j ≤ l.length
  · have := sum_take_mono l hpos j l.length hj
    simpa using this
  · rw [List.take_of_length_le (by omega)]

/-- Unfolding one more entry of a partial sum. -/
theorem sum_take_succ_int (l : List Int) (k : Nat) (h : k < l.length) :
    (l.take (k + 1)).sum = (l.take k).sum + l.getD k 0 := by
  rw [List.take_succ, List.sum_append, List.getElem?_eq_getElem h]
  simp [List.getD_eq_getElem _ _ h, List.getElem?_eq_getElem h]

/-- On a nonempty input, rle takes the computing branch. -/
theorem rle_eq_some {α : Type} [DecidableEq α] [Inhabited α] (ia : List α) (h : ia ≠ []) :
    rle ia = some (rleLengths ia, rleStarts ia, rleValues ia) := by
  unfold rle
  rw [if_neg (by simpa [List.length_eq_zero] using h)]

/-- All run start positions are nonnegative. -/
theorem rleStarts_nonneg {α : Type} [DecidableEq α] [Inhabited α] (ia : List α)
    (h : ia ≠ []) : ∀ x ∈ rleStarts ia, 0 ≤ x := by
  obtain ⟨hpos, _, _, _, _⟩ := rle_invariants ia h
  intro x hx
  obtain ⟨k, hk, hxk⟩ := List.mem_iff_getElem.mp hx
  have hk' : k < (rleLengths ia).length := by rwa [rleStarts_length] at hk
  have hval := rleStarts_getD ia k hk'
  rw [List.getD_eq_getElem _ _ hk] at hval
  rw [← hxk, hval]
  exact List.sum_nonneg (fun y hy => le_of_lt (hpos y (List.mem_of_mem_take hy)))

/-- The post-encoding parts of calculate_contacts and of the specification
    wording agree whenever the run starts are nonnegative and the run
    lengths positive: the lower clip bound of 0 is inactive, the clipped
    end index is min(start + length, N - 1), and the two benefit products
    commute. -/
theorem contacts_pipeline_eq (obstime : List ℚ) (priority : ℚ) (n : Int) :
    ∀ (ps zs : List Int) (vs : List Bool),
      (∀ x ∈ ps, 0 ≤ x) → (∀ x ∈ zs, 0 < x) →
      ((ps.zip (((List.zipWith (fun s l => s + l) ps zs).map
          (fun e => min (n - 1) (max e 0))).zip vs)).filter
            (fun r => r.2.2 && decide (r.1 ≠ n - 1))).map
        (fun r => TargetContact.make (obstime.getD r.1.toNat 0)
          (obstime.getD r.2.1.toNat 0) (1 / priority) true)
      = ((ps.zip (zs.zip vs)).filter (fun r => r.2.2 && decide (r.1 ≠ n - 1))).map
          (fun r =>
            { start := obstime.getD r.1.toNat 0
              end_ := obstime.getD (min (r.1 + r.2.1) (n - 1)).toNat 0
              duration := obstime.getD (min (r.1 + r.2.1) (n - 1)).toNat 0
                - obstime.getD r.1.toNat 0
              benefit := (obstime.getD (min (r.1 + r.2.1) (n - 1)).toNat 0
                - obstime.getD r.1.toNat 0) * (1 / priority) }) := by
  intro ps
  induction ps with
  | nil =>
    intro zs vs _ _
    simp
  | cons p pt ih =>
    intro zs vs hps hzs
    cases zs with
    | nil => simp
    | cons z zt =>
      cases vs with
      | nil => simp
      | cons v vt =>
        have hp0 : 0 ≤ p := hps p (List.mem_cons_self _ _)
        have hz0 : 0 < z := hzs z (List.mem_cons_self _ _)
        have hmin : min (n - 1) (max (p + z) 0) = min (p + z) (n - 1) := by
          rw [max_eq_left (by omega : (0 : Int) ≤ p + z), min_comm]
        have htail := ih zt vt (fun x hx => hps x (List.mem_cons_of_mem _ hx))
          (fun x hx => hzs x (List.mem_cons_of_mem _ hx))
        simp only [List.zipWith_cons_cons, List.map_cons, List.zip_cons_cons, List.filter_cons]
        by_cases hc : (v && decide (p ≠ n - 1)) = true
        · rw [if_pos hc, if_pos hc, List.map_cons, List.map_cons, htail]
          congr 1
          rw [hmin]
          simp [TargetContact.make, mul_comm]
        · rw [if_neg hc, if_neg hc, htail]

/-- The values list has the same length as the lengths list. -/
theorem rleValues_length {α : Type} [DecidableEq α] [Inhabited α] (ia : List α) :
    (rleValues ia).length = (runEnds ia).length := by
  simp [rleValues]

/-- Looking up the last element of a nonempty rational list. -/
theorem getLastD_eq_getD (l : List ℚ) (h : l ≠ []) :
    l.getLastD 0 = l.getD (l.length - 1) 0 := by
  rw [List.getLastD_eq_getLast?, List.getLast?_eq_getElem?]
  have hlt : l.length - 1 < l.length := by
    cases l with
    | nil => exact absurd rfl h
    | cons a t => simp
  rw [List.getElem?_eq_getElem hlt, List.getD_eq_getElem _ _ hlt]
  rfl

/-- Looking up the head of a nonempty rational list. -/
theorem headD_eq_getD (l : List ℚ) (h : l ≠ []) : l.headD 0 = l.getD 0 0 := by
  obtain ⟨a, t, rfl⟩ := List.exists_cons_of_ne_nil h
  rfl

/-- A strictly increasing epoch chain gives a monotone indexed lookup. -/
theorem chain_lt_getD_mono (epochs : List ℚ) (hchain : List.Chain' (fun a b => a < b) epochs) :
    ∀ i j : Nat, i ≤ j → j < epochs.length → epochs.getD i 0 ≤ epochs.getD j 0 := by
  intro i j hij hj
  have hpair : List.Pairwise (fun a b => a < b) epochs := List.chain'_iff_pairwise.mp hchain
  rcases Nat.lt_or_ge i j with hlt | hge
  · have hi : i < epochs.length := lt_trans hlt hj
    have hstep := List.pairwise_iff_getElem.mp hpair i j hi hj hlt
    rw [List.getD_eq_getElem _ _ hi, List.getD_eq_getElem _ _ hj]
    exact le_of_lt hstep
  · have hij' : i = j := le_antisymm hij hge
    rw [hij']

/-- A strictly increasing epoch chain gives strictly increasing lookups. -/
theorem chain_lt_getD_strict (epochs : List ℚ) (hchain : List.Chain' (fun a b => a < b) epochs)
    (i j : Nat) (hij : i < j) (hj : j < epochs.length) :
    epochs.getD i 0 < epochs.getD j 0 := by
  have hpair : List.Pairwise (fun a b => a < b) epochs := List.chain'_iff_pairwise.mp hchain
  have hi : i < epochs.length := lt_trans hij hj
  rw [List.getD_eq_getElem _ _ hi, List.getD_eq_getElem _ _ hj]
  exact List.pairwise_iff_getElem.mp hpair i j hi hj hij

/-- Chained index intervals under a monotone lookup: the total of the
    per-interval increments is bounded by the full span. -/
theorem sum_span_bound (f : Int → ℚ) (m : Int)
    (hf : ∀ i j : Int, 0 ≤ i → i ≤ j → j ≤ m → f i ≤ f j) :
    ∀ (l : List (Int × Int × Bool)) (lo : Int), 0 ≤ lo → lo ≤ m →
      (∀ r ∈ l, lo ≤ r.1 ∧ r.1 ≤ r.2.1 ∧ r.2.1 ≤ m) →
      List.Pairwise (fun a b => a.2.1 ≤ b.1) l →
      (l.map (fun r => f r.2.1 - f r.1)).sum ≤ f m - f lo := by
  intro l
  induction l with
  | nil =>
    intro lo h0 hm _ _
    have := hf lo m h0 hm le_rfl
    simp
    linarith
  | cons r t ih =>
    intro lo h0 hm hmem hpair
    obtain ⟨hlo, hse, hem⟩ := hmem r (List.mem_cons_self _ _)
    have h0s : 0 ≤ r.1 := le_trans h0 hlo
    have h0e : 0 ≤ r.2.1 := le_trans h0s hse
    obtain ⟨hhead, htailpair⟩ := List.pairwise_cons.mp hpair
    have htail := ih r.2.1 h0e hem
      (fun s hs => ⟨hhead s hs, (hmem s (List.mem_cons_of_mem _ hs)).2⟩)
      htailpair
    simp only [List.map_cons, List.sum_cons]
    have h1 : f lo ≤ f r.1 := hf lo r.1 h0 hlo (le_trans hse hem)
    linarith

/-- Each interval increment of a monotone lookup is nonnegative, so the
    total is nonnegative. -/
theorem sum_span_nonneg (f : Int → ℚ) (m : Int)
    (hf : ∀ i j : Int, 0 ≤ i → i ≤ j → j ≤ m → f i ≤ f j)
    (l : List (Int × Int × Bool))
    (hmem : ∀ r ∈ l, 0 ≤ r.1 ∧ r.1 ≤ r.2.1 ∧ r.2.1 ≤ m) :
    0 ≤ (l.map (fun r => f r.2.1 - f r.1)).sum := by
  apply List.sum_nonneg
  intro x hx
  obtain ⟨r, hr, rfl⟩ := List.mem_map.mp hx
  obtain ⟨h0, hse, hem⟩ := hmem r hr
  have := hf r.1 r.2.1 h0 hse hem
  linarith

/-- Structural facts about the run triples assembled by calculate_contacts:
    every triple has a nonnegative start, a clipped end at or after its
    start and at most the final index, and the clipped end of any earlier
    triple is at most the start of any later one. -/
theorem contacts_triples_facts (ia : List Bool) (hne : ia ≠ []) :
    (∀ r ∈ (rleStarts ia).zip
        (((List.zipWith (fun s l => s + l) (rleStarts ia) (rleLengths ia)).map
          (fun x => min ((ia.length : Int) - 1) (max x 0))).zip (rleValues ia)),
      0 ≤ r.1 ∧ r.1 ≤ r.2.1 ∧ r.2.1 ≤ (ia.length : Int) - 1) ∧
    List.Pairwise (fun a b => a.2.1 ≤ b.1)
      ((rleStarts ia).zip
        (((List.zipWith (fun s l => s + l) (rleStarts ia) (rleLengths ia)).map
          (fun x => min ((ia.length : Int) - 1) (max x 0))).zip (rleValues ia))) := by
  obtain ⟨hpos, hsum, _, _, _⟩ := rle_invariants ia hne
  have hznn : ∀ x ∈ rleLengths ia, 0 ≤ x := fun x hx => le_of_lt (hpos x hx)
  have hplen : (rleStarts ia).length = (rleLengths ia).length := rleStarts_length ia
  have hvlen : (rleValues ia).length = (rleLengths ia).length := by
    rw [rleValues_length, rleLengths_length]
  have hielen : (List.zipWith (fun s l => s + l) (rleStarts ia) (rleLengths ia)).length
      = (rleLengths ia).length := by
    rw [List.length_zipWith, hplen, min_self]
  have helen : ((List.zipWith (fun s l => s + l) (rleStarts ia) (rleLengths ia)).map
      (fun x => min ((ia.length : Int) - 1) (max x 0))).length
      = (rleLengths ia).length := by
    rw [List.length_map, hielen]
  have hpk : ∀ (k : Nat) (hk : k < (rleStarts ia).length),
      (rleStarts ia)[k] = ((rleLengths ia).take k).sum := by
    intro k hk
    rw [← List.getD_eq_getElem (rleStarts ia) 0 hk]
    exact rleStarts_getD ia k (hplen ▸ hk)
  have hzk_pos : ∀ (k : Nat) (hk : k < (rleLengths ia).length), 1 ≤ (rleLengths ia)[k] := by
    intro k hk
    have := hpos _ (List.getElem_mem hk)
    omega
  have hSnn : ∀ k : Nat, 0 ≤ ((rleLengths ia).take k).sum := by
    intro k
    exact List.sum_nonneg (fun x hx => hznn x (List.mem_of_mem_take hx))
  have hSle : ∀ (k : Nat) (hk : k < (rleLengths ia).length),
      ((rleLengths ia).take k).sum + (rleLengths ia)[k] ≤ (ia.length : Int) := by
    intro k hk
    have h1 := sum_take_succ_int (rleLengths ia) k hk
    rw [List.getD_eq_getElem _ _ hk] at h1
    have h2 := sum_take_le_sum (rleLengths ia) hznn (k + 1)
    rw [hsum] at h2
    omega
  constructor
  · intro r hr
    obtain ⟨k, hk, hrk⟩ := List.mem_iff_getElem.mp hr
    have hkz : k < (rleLengths ia).length := by
      rw [List.length_zip, List.length_zip, helen, hvlen, hplen] at hk
      omega
    rw [List.getElem_zip, List.getElem_zip] at hrk
    subst hrk
    have hkp : k < (rleStarts ia).length := hplen ▸ hkz
    simp only [List.getElem_map, List.getElem_zipWith]
    rw [hpk k hkp]
    have h1 := hzk_pos k hkz
    have h2 := hSle k hkz
    have h3 := hSnn k
    refine ⟨by omega, by omega, by omega⟩
  · rw [List.pairwise_iff_getElem]
    intro i j hi hj hij
    have hiz : i < (rleLengths ia).length := by
      rw [List.length_zip, List.length_zip, helen, hvlen, hplen] at hi
      omega
    have hjz : j < (rleLengths ia).length := by
      rw [List.length_zip, List.length_zip, helen, hvlen, hplen] at hj
      omega
    simp only [List.getElem_zip, List.getElem_map, List.getElem_zipWith]
    rw [hpk i (hplen ▸ hiz), hpk j (hplen ▸ hjz)]
    have hsucc := sum_take_succ_int (rleLengths ia) i hiz
    rw [List.getD_eq_getElem _ _ hiz] at hsucc
    have hmono := sum_take_mono (rleLengths ia) hznn (i + 1) j hij
    have hz1 := hzk_pos i hiz
    have hnn := hSnn i
    omega

/-- Exclusion model at a grid point through the zero-radius probe: visible
    exactly when the separation clears the hard disk and avoids the open
    interior of every soft band. -/
theorem probe_visibility_iff {Pos : Type} (sep : Pos → Pos → ℚ) (g : Pos)
    (sb : SolarBody Pos) (t : Nat) :
    (probe g).calculate_visibility sep sb t = true ↔
      (0 ≤ sep (sb.coordinates t) g - sb.angular_radius t ∧
       ∀ r ∈ sb.soft_radius,
         ¬(sep (sb.coordinates t) g - r.1 > 0 ∧ sep (sb.coordinates t) g - r.2 < 0)) := by
  rw [subtarget_visibility_iff]
  simp [probe]

end Lemmas

section Claims


/-- C2: for every angular separation s ≥ 0, target radius, occluder hard
    radius and ordered soft bands, the per-occluder visibility of a
    subtarget equals the conjunction of hard-disk clearance
    (s - r_t - r_h ≥ 0, touching counts as visible) and, per soft band,
    the negation of ((s + r_t - r_in) > 0 and (s - r_t - r_out) < 0);
    with band (5, 10) and target radius 1, separation 6 is excluded and
    separation 12 is visible. -/
theorem claim_C2 :
    (∀ (Pos : Type) (sep : Pos → Pos → ℚ) (st : AstroSubtarget Pos)
        (sb : SolarBody Pos) (t : Nat),
        0 ≤ sep (sb.coordinates t) (st.coordinates t) →
        (st.calculate_visibility sep sb t = true ↔
          (sep (sb.coordinates t) (st.coordinates t) - st.angular_radius -
              sb.angular_radius t ≥ 0 ∧
           ∀ r ∈ sb.soft_radius,
             ¬(sep (sb.coordinates t) (st.coordinates t) + st.angular_radius - r.1 > 0 ∧
               sep (sb.coordinates t) (st.coordinates t) - st.angular_radius - r.2 < 0)))) ∧
    exampleSubtarget.calculate_visibility sep6 exampleBody 0 = false ∧
    exampleSubtarget.calculate_visibility sep12 exampleBody 0 = true := by
  refine ⟨fun Pos sep st sb t _ => ?_, by with_unfolding_all decide,
    by with_unfolding_all decide⟩
  simpa [ge_iff_le] using subtarget_visibility_iff sep st sb t

/-- Witness for C2 at separation 6, band (5, 10), target radius 1. -/
theorem claim_C2_witness :
    0 ≤ sep6 (exampleBody.coordinates 0) (exampleSubtarget.coordinates 0) ∧
    (exampleSubtarget.calculate_visibility sep6 exampleBody 0 = true ↔
      (sep6 (exampleBody.coordinates 0) (exampleSubtarget.coordinates 0) -
          exampleSubtarget.angular_radius - exampleBody.angular_radius 0 ≥ 0 ∧
       ∀ r ∈ exampleBody.soft_radius,
         ¬(sep6 (exampleBody.coordinates 0) (exampleSubtarget.coordinates 0) +
             exampleSubtarget.angular_radius - r.1 > 0 ∧
           sep6 (exampleBody.coordinates 0) (exampleSubtarget.coordinates 0) -
             exampleSubtarget.angular_radius - r.2 < 0))) :=
  ⟨by decide, claim_C2.1 Unit sep6 exampleSubtarget exampleBody 0 (by decide)⟩

/-- C3: for every target with at least one subtarget, target visibility at
    an epoch is the conjunction over every (subtarget, occluder) pair of
    the pair visibility, and a single false pair forces the target false. -/
theorem claim_C3 :
    ∀ (Pos : Type) (sep : Pos → Pos → ℚ) (target : AstroTarget Pos)
      (solar_bodies : List (SolarBody Pos)) (t : Nat),
      target.subtargets ≠ [] →
      ((target.calculate_visibility sep solar_bodies t = true ↔
         ∀ st ∈ target.subtargets, ∀ sb ∈ solar_bodies,
           st.calculate_visibility sep sb t = true) ∧
       (∀ st ∈ target.subtargets, ∀ sb ∈ solar_bodies,
          st.calculate_visibility sep sb t = false →
          target.calculate_visibility sep solar_bodies t = false)) := by
  intro Pos sep target solar_bodies t _
  refine ⟨target_visibility_iff sep target solar_bodies t, ?_⟩
  intro st hst sb hsb hfalse
  cases hvis : target.calculate_visibility sep solar_bodies t with
  | false => rfl
  | true =>
    have := (target_visibility_iff sep target solar_bodies t).mp hvis st hst sb hsb
    rw [hfalse] at this
    cases this

/-- Witness for C3 on a target with one subtarget and one occluder. -/
theorem claim_C3_witness :
    exampleTarget.subtargets ≠ [] ∧
    ((exampleTarget.calculate_visibility sep12 [exampleBody] 0 = true ↔
       ∀ st ∈ exampleTarget.subtargets, ∀ sb ∈ [exampleBody],
         st.calculate_visibility sep12 sb 0 = true) ∧
     (∀ st ∈ exampleTarget.subtargets, ∀ sb ∈ [exampleBody],
        st.calculate_visibility sep12 sb 0 = false →
        exampleTarget.calculate_visibility sep12 [exampleBody] 0 = false)) :=
  ⟨by simp [exampleTarget],
   claim_C3 Unit sep12 exampleTarget [exampleBody] 0 (by simp [exampleTarget])⟩

/-- C4 (code bug): the claim states that contact extraction on a length-0
    series succeeds with an empty contact list, but in the source rle
    returns the triple (None, None, None) on an empty input (modelled as
    none) and calculate_contacts then evaluates istart + ilength on None,
    raising TypeError (modelled as none) instead of returning an empty
    list; a wholly-invisible nonempty series does return an empty list. -/
theorem claim_C4 :
    rle ([] : List Bool) = none ∧
    calculate_contacts [] [] 1 = none ∧
    calculate_contacts [false] [0] 1 = some [] := by
  refine ⟨rfl, rfl, by decide⟩

/-- C5: a statistics row computed from an empty contact list reports
    contact count 0, total duration 0, percentage duration 0, and
    not-a-number (modelled as none) for the mean, standard deviation,
    minimum and maximum of contact durations. -/
theorem claim_C5 :
    ∀ (name category : String) (mean_ra mean_dec : ℚ) (obstime : List ℚ),
      (calculate_overall_stats name category mean_ra mean_dec [] obstime).n_contacts = 0 ∧
      (calculate_overall_stats name category mean_ra mean_dec [] obstime).total_duration = 0 ∧
      (calculate_overall_stats name category mean_ra mean_dec [] obstime).percentage_duration = 0 ∧
      (calculate_overall_stats name category mean_ra mean_dec [] obstime).mean_duration = none ∧
      (calculate_overall_stats name category mean_ra mean_dec [] obstime).stddev_duration = none ∧
      (calculate_overall_stats name category mean_ra mean_dec [] obstime).min_duration = none ∧
      (calculate_overall_stats name category mean_ra mean_dec [] obstime).max_duration = none := by
  intro name category mean_ra mean_dec obstime
  simp [calculate_overall_stats]

/-- C6: the exclusion model is monotone; enlarging the target radius, the
    occluder hard radius, or any soft band (smaller inner radius, larger
    outer radius) never converts an excluded sample into a visible one:
    visibility under the enlarged configuration implies visibility under
    the original one. -/
theorem claim_C6 :
    ∀ (Pos : Type) (sep : Pos → Pos → ℚ) (st st' : AstroSubtarget Pos)
      (sb sb' : SolarBody Pos) (t : Nat),
      st'.coordinates = st.coordinates →
      sb'.coordinates = sb.coordinates →
      0 ≤ sep (sb.coordinates t) (st.coordinates t) →
      st.angular_radius ≤ st'.angular_radius →
      sb.angular_radius t ≤ sb'.angular_radius t →
      List.Forall₂ (fun r r' => r'.1 ≤ r.1 ∧ r.2 ≤ r'.2) sb.soft_radius sb'.soft_radius →
      st'.calculate_visibility sep sb' t = true →
      st.calculate_visibility sep sb t = true := by
  intro Pos sep st st' sb sb' t hstc hsbc _ hrt hrh hbands hvis
  rw [subtarget_visibility_iff] at hvis ⊢
  rw [hstc, hsbc] at hvis
  obtain ⟨hhard, hsoft⟩ := hvis
  constructor
  · linarith
  · refine forall_of_forall₂ hbands hsoft ?_
    rintro r r' ⟨hin, hout⟩ hq ⟨h1, h2⟩
    exact hq ⟨by linarith, by linarith⟩

/-- Witness for C6: separation 4, target radius 1 vs 2, hard radius 1 vs 2,
    band (10, 11) vs (9, 12). -/
theorem claim_C6_witness :
    exampleSubtarget2.coordinates = exampleSubtarget.coordinates ∧
    exampleBody3.coordinates = exampleBody2.coordinates ∧
    0 ≤ sep4 (exampleBody2.coordinates 0) (exampleSubtarget.coordinates 0) ∧
    exampleSubtarget.angular_radius ≤ exampleSubtarget2.angular_radius ∧
    exampleBody2.angular_radius 0 ≤ exampleBody3.angular_radius 0 ∧
    List.Forall₂ (fun r r' => r'.1 ≤ r.1 ∧ r.2 ≤ r'.2)
      exampleBody2.soft_radius exampleBody3.soft_radius ∧
    exampleSubtarget2.calculate_visibility sep4 exampleBody3 0 = true ∧
    exampleSubtarget.calculate_visibility sep4 exampleBody2 0 = true :=
  ⟨rfl, rfl, by decide, by decide, by decide,
   List.Forall₂.cons ⟨by norm_num, by norm_num⟩ List.Forall₂.nil,
   by with_unfolding_all decide,
   claim_C6 Unit sep4 exampleSubtarget exampleSubtarget2 exampleBody2 exampleBody3 0
     rfl rfl (by decide) (by decide) (by decide)
     (List.Forall₂.cons ⟨by norm_num, by norm_num⟩ List.Forall₂.nil)
     (by with_unfolding_all decide)⟩

/-- Counterexample to C7 as stated: with one occluder of hard radius 1 and
    a grid point at separation exactly 1, the renderer marks the point
    occupied (closed comparison, 1 <= 1) while the time-series exclusion
    model at zero target radius counts it visible (1 - 0 - 1 >= 0), so the
    claimed equivalence with the pipeline's exclusion model fails on the
    boundary. -/
theorem claim_C7_counterexample :
    ¬(solar_bitmap_at sep1 [exampleBody2] 0 () = true ↔
      ∃ sb ∈ [exampleBody2], (probe ()).calculate_visibility sep1 sb 0 = false) := by
  with_unfolding_all decide

/-- C7 amended: the occluder bitmap marks a grid point occupied exactly when
    some occluder's separation is at most its hard radius or lies in the
    closed interval of some soft band (the logical OR across occluders is as
    claimed); away from those boundaries (separation different from the hard
    radius and from every band edge of every occluder) this coincides with
    some occluder being not visible under the time-series exclusion model at
    zero target radius, while at boundary points the renderer marks occupied
    although the exclusion model counts the point visible. -/
theorem claim_C7 :
    ∀ (Pos : Type) (sep : Pos → Pos → ℚ) (solar_bodies : List (SolarBody Pos))
      (index : Nat) (g : Pos),
      (solar_bitmap_at sep solar_bodies index g = true ↔
        ∃ sb ∈ solar_bodies,
          (sep (sb.coordinates index) g ≤ sb.angular_radius index ∨
           ∃ r ∈ sb.soft_radius,
             r.1 ≤ sep (sb.coordinates index) g ∧ sep (sb.coordinates index) g ≤ r.2)) ∧
      ((∀ sb ∈ solar_bodies,
          sep (sb.coordinates index) g ≠ sb.angular_radius index ∧
          ∀ r ∈ sb.soft_radius,
            sep (sb.coordinates index) g ≠ r.1 ∧ sep (sb.coordinates index) g ≠ r.2) →
        (solar_bitmap_at sep solar_bodies index g = true ↔
          ∃ sb ∈ solar_bodies,
            (probe g).calculate_visibility sep sb index = false)) := by
  intro Pos sep solar_bodies index g
  refine ⟨solar_bitmap_at_iff sep solar_bodies index g, ?_⟩
  intro hb
  rw [solar_bitmap_at_iff]
  constructor
  · rintro ⟨sb, hsb, hocc⟩
    refine ⟨sb, hsb, ?_⟩
    obtain ⟨hhard_ne, hsoft_ne⟩ := hb sb hsb
    cases hvis : (probe g).calculate_visibility sep sb index with
    | false => rfl
    | true =>
      exfalso
      rw [probe_visibility_iff] at hvis
      obtain ⟨hh, hs⟩ := hvis
      rcases hocc with hocc | ⟨r, hr, hr1, hr2⟩
      · exact hhard_ne (le_antisymm hocc (by linarith))
      · obtain ⟨hne1, hne2⟩ := hsoft_ne r hr
        apply hs r hr
        constructor
        · have hlt : r.1 < sep (sb.coordinates index) g := lt_of_le_of_ne hr1 (Ne.symm hne1)
          linarith
        · have hlt : sep (sb.coordinates index) g < r.2 := lt_of_le_of_ne hr2 hne2
          linarith
  · rintro ⟨sb, hsb, hvis⟩
    refine ⟨sb, hsb, ?_⟩
    by_contra hocc
    push_neg at hocc
    obtain ⟨hocc1, hocc2⟩ := hocc
    have hvis' : (probe g).calculate_visibility sep sb index = true := by
      rw [probe_visibility_iff]
      constructor
      · linarith
      · rintro r hr ⟨h1, h2⟩
        have hr1 : r.1 ≤ sep (sb.coordinates index) g := by linarith
        have hr2 := hocc2 r hr hr1
        linarith
    rw [hvis'] at hvis
    cases hvis

/-- Witness for the amended C7 away from the boundary: separation 12 with
    hard radius 1 and soft band (10, 11). -/
theorem claim_C7_witness :
    (∀ sb ∈ [exampleBody2],
        sep12 (sb.coordinates 0) () ≠ sb.angular_radius 0 ∧
        ∀ r ∈ sb.soft_radius, sep12 (sb.coordinates 0) () ≠ r.1 ∧
          sep12 (sb.coordinates 0) () ≠ r.2) ∧
    (solar_bitmap_at sep12 [exampleBody2] 0 () = true ↔
      ∃ sb ∈ [exampleBody2], (probe ()).calculate_visibility sep12 sb 0 = false) :=
  ⟨by with_unfolding_all decide,
   (claim_C7 Unit sep12 [exampleBody2] 0 ()).2 (by with_unfolding_all decide)⟩

/-- C8: the target-occupancy bitmap marks a grid point occupied exactly
    when the separation from the point to some subtarget of some target at
    that epoch is at most the subtarget's angular radius (plain disk
    containment with no occlusion logic), OR-ed across all subtargets of
    all targets. -/
theorem claim_C8 :
    ∀ (Pos : Type) (sep : Pos → Pos → ℚ) (targets : List (AstroTarget Pos))
      (index : Nat) (g : Pos),
      target_bitmap_at sep targets index g = true ↔
        ∃ target ∈ targets, ∃ st ∈ target.subtargets,
          sep (st.coordinates index) g ≤ st.angular_radius := by
  intro Pos sep targets index g
  exact target_bitmap_at_iff sep targets index g

/-- C1: for every boolean visibility series of length at least 1 and its
    aligned epoch series, contact extraction run-length encodes the series,
    clips each run end to min(start + length, N - 1), discards false runs
    and runs starting at the last index, and builds each remaining contact
    from the epochs at the start and end index with duration = end - start
    and benefit = duration times (1 / priority); on the worked example
    [F,T,T,F,T,T,T,F] over day epochs 0..7 with priority 2 this yields
    exactly the two contacts (1, 3, duration 2, benefit 1) and
    (4, 7, duration 3, benefit 3/2). -/
theorem claim_C1 :
    (∀ (visibility : List Bool) (obstime : List ℚ) (priority : ℚ),
        1 ≤ visibility.length →
        calculate_contacts visibility obstime priority
          = contactsFromSpec visibility obstime priority) ∧
    calculate_contacts [false, true, true, false, true, true, true, false]
        [0, 1, 2, 3, 4, 5, 6, 7] 2
      = some [{ start := 1, end_ := 3, duration := 2, benefit := 1 },
              { start := 4, end_ := 7, duration := 3, benefit := 3 / 2 }] := by
  constructor
  · intro visibility obstime priority hlen
    have hne : visibility ≠ [] := by
      intro hcontra
      rw [hcontra] at hlen
      simp at hlen
    obtain ⟨hpos, _, _, _, _⟩ := rle_invariants visibility hne
    have hstarts := rleStarts_nonneg visibility hne
    simp only [calculate_contacts, contactsFromSpec, rle_eq_some visibility hne]
    exact congrArg some
      (contacts_pipeline_eq obstime priority (visibility.length : Int)
        (rleStarts visibility) (rleLengths visibility) (rleValues visibility)
        hstarts hpos)
  · with_unfolding_all decide

/-- Witness for C1 on the series [false, true] with epochs [0, 1]. -/
theorem claim_C1_witness :
    1 ≤ ([false, true] : List Bool).length ∧
    calculate_contacts [false, true] [0, 1] 1 = contactsFromSpec [false, true] [0, 1] 1 :=
  ⟨by decide, claim_C1.1 [false, true] [0, 1] 1 (by decide)⟩

/-- C9: for a strictly increasing epoch series aligned with the boolean
    visibility series, the percentage duration reported by the statistics
    row over the contacts produced by the contact extractor lies within
    [0, 100]. -/
theorem claim_C9 :
    ∀ (visibility : List Bool) (epochs : List ℚ) (priority : ℚ)
      (contacts : List TargetContact) (name category : String) (mean_ra mean_dec : ℚ),
      epochs.length = visibility.length →
      List.Chain' (fun a b => a < b) epochs →
      calculate_contacts visibility epochs priority = some contacts →
      0 ≤ (calculate_overall_stats name category mean_ra mean_dec contacts
            epochs).percentage_duration ∧
      (calculate_overall_stats name category mean_ra mean_dec contacts
            epochs).percentage_duration ≤ 100 := by
  intro visibility epochs priority contacts name category mean_ra mean_dec hlen hchain hcc
  have hne : visibility ≠ [] := by
    intro hcontra
    rw [hcontra] at hcc
    simp [calculate_contacts, rle] at hcc
  have hvl : 1 ≤ visibility.length := List.length_pos.mpr hne
  simp only [calculate_contacts, rle_eq_some visibility hne, Option.some.injEq] at hcc
  obtain ⟨Tmem, Tpair⟩ := contacts_triples_facts visibility hne
  by_cases hc0 : contacts = []
  · subst hc0
    simp [calculate_overall_stats]
  · -- the statistics take the nonzero branch
    have hstats : (calculate_overall_stats name category mean_ra mean_dec contacts
          epochs).percentage_duration
        = 100 * (contacts.map (fun c => c.duration)).sum
            / (epochs.getLastD 0 - epochs.headD 0) := by
      simp only [calculate_overall_stats]
      rw [if_neg (by simp [List.length_eq_zero, hc0])]
    -- durations through the construction
    have hdur : contacts.map (fun c => c.duration)
        = (((rleStarts visibility).zip
            (((List.zipWith (fun s l => s + l) (rleStarts visibility)
                (rleLengths visibility)).map
              (fun x => min ((visibility.length : Int) - 1) (max x 0))).zip
              (rleValues visibility))).filter
            (fun r => r.2.2 && decide (r.1 ≠ (visibility.length : Int) - 1))).map
            (fun r => epochs.getD r.2.1.toNat 0 - epochs.getD r.1.toNat 0) := by
      rw [← hcc, List.map_map]
      rfl
    -- the kept list and its facts
    have kmem : ∀ r ∈ (((rleStarts visibility).zip
          (((List.zipWith (fun s l => s + l) (rleStarts visibility)
              (rleLengths visibility)).map
            (fun x => min ((visibility.length : Int) - 1) (max x 0))).zip
            (rleValues visibility))).filter
          (fun r => r.2.2 && decide (r.1 ≠ (visibility.length : Int) - 1))),
        0 ≤ r.1 ∧ r.1 ≤ r.2.1 ∧ r.2.1 ≤ (visibility.length : Int) - 1 :=
      fun r hr => Tmem r (List.mem_of_mem_filter hr)
    have kpair : List.Pairwise (fun a b => a.2.1 ≤ b.1)
        (((rleStarts visibility).zip
          (((List.zipWith (fun s l => s + l) (rleStarts visibility)
              (rleLengths visibility)).map
            (fun x => min ((visibility.length : Int) - 1) (max x 0))).zip
            (rleValues visibility))).filter
          (fun r => r.2.2 && decide (r.1 ≠ (visibility.length : Int) - 1))) :=
      List.Pairwise.sublist (List.filter_sublist _) Tpair
    -- the kept list is nonempty, hence the series has at least two samples
    have hkept_ne : (((rleStarts visibility).zip
          (((List.zipWith (fun s l => s + l) (rleStarts visibility)
              (rleLengths visibility)).map
            (fun x => min ((visibility.length : Int) - 1) (max x 0))).zip
            (rleValues visibility))).filter
          (fun r => r.2.2 && decide (r.1 ≠ (visibility.length : Int) - 1))) ≠ [] := by
      intro hk
      rw [hk] at hcc
      simp at hcc
      exact hc0 hcc
    have hvl2 : 2 ≤ visibility.length := by
      obtain ⟨r, hr⟩ := List.exists_mem_of_ne_nil _ hkept_ne
      obtain ⟨hrT, hrpred⟩ := List.mem_filter.mp hr
      have hrne : r.1 ≠ (visibility.length : Int) - 1 := by
        have := (Bool.and_eq_true _ _).mp hrpred
        exact of_decide_eq_true this.2
      obtain ⟨h0, hse, hem⟩ := Tmem r hrT
      omega
    -- monotone epoch lookup over integer indices
    have hf : ∀ i j : Int, 0 ≤ i → i ≤ j → j ≤ (visibility.length : Int) - 1 →
        epochs.getD i.toNat 0 ≤ epochs.getD j.toNat 0 := by
      intro i j h0 hij hjm
      exact chain_lt_getD_mono epochs hchain i.toNat j.toNat (by omega) (by omega)
    -- span facts
    have hepne : epochs ≠ [] := by
      intro hcontra
      rw [hcontra] at hlen
      simp at hlen
      omega
    have hspan_eq : epochs.getLastD 0 - epochs.headD 0
        = epochs.getD (((visibility.length : Int) - 1).toNat) 0
          - epochs.getD ((0 : Int).toNat) 0 := by
      rw [getLastD_eq_getD epochs hepne, headD_eq_getD epochs hepne, hlen]
      congr 2
      omega
    have hspan_pos : 0 < epochs.getLastD 0 - epochs.headD 0 := by
      rw [hspan_eq]
      have hstrict := chain_lt_getD_strict epochs hchain 0 (visibility.length - 1)
        (by omega) (by omega)
      have ht1 : ((visibility.length : Int) - 1).toNat = visibility.length - 1 := by omega
      have ht0 : ((0 : Int)).toNat = 0 := rfl
      rw [ht1, ht0]
      linarith
    -- total duration bounds
    have htot_nonneg : 0 ≤ (contacts.map (fun c => c.duration)).sum := by
      rw [hdur]
      exact sum_span_nonneg _ ((visibility.length : Int) - 1) hf _ kmem
    have htot_le : (contacts.map (fun c => c.duration)).sum
        ≤ epochs.getLastD 0 - epochs.headD 0 := by
      rw [hdur, hspan_eq]
      exact sum_span_bound _ ((visibility.length : Int) - 1) hf _ 0 le_rfl (by omega)
        kmem kpair
    rw [hstats]
    constructor
    · exact div_nonneg (by positivity) (le_of_lt hspan_pos)
    · rw [div_le_iff₀ hspan_pos]
      linarith

/-- Witness for C9 on the series [false, true, true, false] with epochs
    0, 1, 2, 3 and priority 1. -/
theorem claim_C9_witness :
    ([0, 1, 2, 3] : List ℚ).length = ([false, true, true, false] : List Bool).length ∧
    List.Chain' (fun a b => a < b) ([0, 1, 2, 3] : List ℚ) ∧
    calculate_contacts [false, true, true, false] [0, 1, 2, 3] 1
      = some [{ start := 1, end_ := 3, duration := 2, benefit := 2 }] ∧
    (0 ≤ (calculate_overall_stats "t" "c" 0 0
          [{ start := 1, end_ := 3, duration := 2, benefit := 2 }]
          [0, 1, 2, 3]).percentage_duration ∧
     (calculate_overall_stats "t" "c" 0 0
          [{ start := 1, end_ := 3, duration := 2, benefit := 2 }]
          [0, 1, 2, 3]).percentage_duration ≤ 100) :=
  ⟨by decide, by norm_num [List.chain'_cons, List.chain'_singleton],
   by with_unfolding_all decide,
   claim_C9 [false, true, true, false] [0, 1, 2, 3] 1
     [{ start := 1, end_ := 3, duration := 2, benefit := 2 }] "t" "c" 0 0
     (by decide) (by norm_num [List.chain'_cons, List.chain'_singleton])
     (by with_unfolding_all decide)⟩

/-- C10: for every non-empty input sequence, rle returns a triple
    (lengths, starts, values) forming a partition of the input: the first
    start is 0, each subsequent start is the previous start plus the
    previous length, the lengths are positive and sum to the input length,
    adjacent run values differ, and concatenating each value replicated by
    its run length reconstructs the input. -/
theorem claim_C10 :
    ∀ {α : Type} [DecidableEq α] [Inhabited α] (ia : List α), ia ≠ [] →
      ∃ z p v, rle ia = some (z, p, v) ∧
        p.getD 0 0 = 0 ∧
        (∀ k : Nat, k + 1 < p.length → p.getD (k + 1) 0 = p.getD k 0 + z.getD k 0) ∧
        (∀ x ∈ z, 0 < x) ∧
        z.sum = (ia.length : Int) ∧
        List.Chain' (fun a b => a ≠ b) v ∧
        (List.zipWith (fun zi vi => List.replicate zi.toNat vi) z v).flatten = ia := by
  intro α _ _ ia hne
  obtain ⟨hpos, hsum, _, hchain, hjoin⟩ := rle_invariants ia hne
  have hlen : 0 < (rleLengths ia).length := by
    rw [rleLengths_length]
    exact runEnds_length_pos ia
  refine ⟨rleLengths ia, rleStarts ia, rleValues ia, ?_, ?_, ?_, hpos, hsum, hchain, hjoin⟩
  · unfold rle
    rw [if_neg (by simpa [List.length_eq_zero] using hne)]
  · rw [rleStarts_getD ia 0 hlen]
    simp
  · intro k hk
    rw [rleStarts_length] at hk
    rw [rleStarts_getD ia (k + 1) hk, rleStarts_getD ia k (by omega)]
    exact sum_take_succ_int _ k (by omega)

/-- Witness for C10 on the series [false, true, true]. -/
theorem claim_C10_witness :
    ([false, true, true] : List Bool) ≠ [] ∧
    (∃ z p v, rle [false, true, true] = some (z, p, v) ∧
      p.getD 0 0 = 0 ∧
      (∀ k : Nat, k + 1 < p.length → p.getD (k + 1) 0 = p.getD k 0 + z.getD k 0) ∧
      (∀ x ∈ z, 0 < x) ∧
      z.sum = (([false, true, true] : List Bool).length : Int) ∧
      List.Chain' (fun a b => a ≠ b) v ∧
      (List.zipWith (fun zi vi => List.replicate zi.toNat vi) z v).flatten
        = [false, true, true]) :=
  ⟨by decide, claim_C10 [false, true, true] (by decide)⟩

end Claims

end Assam
